import Mathlib

/-!
Shallow embedding of the visitor-console server (`server` module of the
repository).  JavaScript strings are modelled as Lean `String`s and the
character-level operations (`trim`, `slice`, `split`, `startsWith`, …)
are defined explicitly on `String.data` so that they mirror the JS
semantics and evaluate by `decide`/`rfl`.  JavaScript values that may or
may not be strings are modelled by `JsValue`; `undefined`/absent values
by `Option`.  `NaN`-producing numeric code (`Number.parseInt`,
`Math.max`) is modelled with `Option Int`, `none` playing the role of
`NaN`.
-/

/-- Whitespace as recognised by JavaScript `String.prototype.trim`
(restricted to the ASCII whitespace characters, which is all the
server ever feeds it). -/
def jsWhitespace (c : Char) : Bool :=
  c = ' ' || c = '\t' || c = '\n' || c = '\r' || c = '\x0b' || c = '\x0c'

/-- JavaScript `value.trim()`: strip whitespace from both ends. -/
def jsTrim (s : String) : String :=
  ⟨((s.data.dropWhile jsWhitespace).reverse.dropWhile jsWhitespace).reverse⟩

/-- JavaScript `value.slice(0, max)` for a non-negative `max`. -/
def jsSlice (s : String) (max : Nat) : String :=
  ⟨s.data.take max⟩

/-- JavaScript `s.startsWith(p)`. -/
def jsStartsWith (s p : String) : Bool :=
  p.data.isPrefixOf s.data

/-- JavaScript `s.split(",")[0]`: the prefix of `s` up to (excluding) the
first comma; `s` itself when there is no comma.  (`"".split(",")[0]`
is `""`, which this also gives.) -/
def splitCommaHead (s : String) : String :=
  ⟨s.data.takeWhile (fun c => c ≠ ',')⟩

/-- A JavaScript value as seen by the sanitizer: either a string or
anything else (`undefined`, `null`, numbers, objects, …), which only
ever matters through `typeof v !== "string"`. -/
inductive JsValue where
  | str (s : String)
  | other
deriving DecidableEq

/-- `function sanitizeString(value, max)` — line 197 of the server:
`null` unless `value` is a string that is non-empty after trimming, in
which case the trimmed string sliced to `max` characters. -/
def sanitizeString (value : JsValue) (max : Nat) : Option String :=
  match value with
  | .str s =>
    let trimmed := jsTrim s
    if trimmed = "" then none else some (jsSlice trimmed max)
  | .other => none

/-- ASCII decimal digit test, as used by `Number.parseInt(str, 10)`. -/
def isDigitChar (c : Char) : Bool :=
  '0' ≤ c && c ≤ '9'

/-- Numeric value of a list of decimal digit characters. -/
def digitsToNat (ds : List Char) : Nat :=
  ds.foldl (fun acc c => acc * 10 + (c.toNat - '0'.toNat)) 0

/-- `Number.parseInt(s, 10)`: skip leading whitespace, optional sign,
read the maximal run of decimal digits; `NaN` (here `none`) when that
run is empty. -/
def parseIntJs (s : String) : Option Int :=
  let cs := s.data.dropWhile jsWhitespace
  let core : List Char → Option Nat := fun l =>
    let ds := l.takeWhile isDigitChar
    if ds = [] then none else some (digitsToNat ds)
  match cs with
  | '-' :: rest => (core rest).map (fun n => -(n : Int))
  | '+' :: rest => (core rest).map (fun n => (n : Int))
  | rest => (core rest).map (fun n => (n : Int))

/-- JavaScript `Math.max` on two possibly-`NaN` numbers: `NaN` (`none`)
if either argument is `NaN`. -/
def jsMax (a b : Option Int) : Option Int :=
  match a, b with
  | some x, some y => some (max x y)
  | _, _ => none

/-- `SESSION_MINUTES = Math.max(5, Number.parseInt(process.env.SESSION_MINUTES ?? "30", 10))`
— line 21.  `env` is the raw environment value, `none` when unset. -/
def sessionMinutes (env : Option String) : Option Int :=
  jsMax (some 5) (parseIntJs (env.getD "30"))

/-- `SESSION_TTL_MS = SESSION_MINUTES * 60 * 1000` — line 64. -/
def sessionTtlMs (env : Option String) : Option Int :=
  (sessionMinutes env).map (fun m => m * 60 * 1000)

section Verifier

/-- Trace of one `verifyPassword` call: whether the key-derivation
function (`crypto.scryptSync`) was invoked, the derived hash when it
was, and the returned boolean. -/
structure VerifyTrace where
  invokedKdf : Bool
  derived : Option (List Nat)
  result : Bool
deriving DecidableEq

/-- `function verifyPassword(candidate)` — lines 55–61.  `scrypt pw len`
abstracts `crypto.scryptSync(pw, salt, len, scryptParams)` (salt and
cost parameters are fixed at startup); `storedHash` is the credential
hash as a byte list.  The comparison `crypto.timingSafeEqual` is
byte-list equality (the two buffers have equal length by construction,
the key length requested being `storedHash.length`). -/
def verifyPassword (scrypt : String → Nat → List Nat) (storedHash : List Nat)
    (candidate : JsValue) : VerifyTrace :=
  match candidate with
  | .other => ⟨false, none, false⟩
  | .str s =>
    if s.length < 12 then ⟨false, none, false⟩
    else
      let derived := scrypt s storedHash.length
      ⟨true, some derived, derived = storedHash⟩

end Verifier

section Sessions

/-- The in-memory session registry `sessions = new Map()` (line 63),
modelled as a finite partial map token ↦ `expiresAt`. -/
def SessionMap : Type := String → Option Int

/-- `sessions.set(token, expiry)`. -/
def sessionsSet (m : SessionMap) (token : String) (expiry : Int) : SessionMap :=
  fun t => if t = token then some expiry else m t

/-- `sessions.delete(token)`. -/
def sessionsDelete (m : SessionMap) (token : String) : SessionMap :=
  fun t => if t = token then none else m t

/-- JavaScript truthiness test `!expiresAt` on `sessions.get(token)`:
true for `undefined` and for the number `0`. -/
def expiryFalsy (e : Option Int) : Bool :=
  match e with
  | none => true
  | some v => v = 0

/-- The token-registry core of `function authenticate(req)` — lines
78–84 (after the Bearer header has been parsed): look the token up;
if missing, falsy or expired, delete it and fail; otherwise extend the
expiry to `now + ttl` (sliding renewal) and succeed.  Returns the
boolean outcome and the updated registry. -/
def authenticate (m : SessionMap) (now ttl : Int) (token : String) :
    Bool × SessionMap :=
  let e := m token
  if expiryFalsy e || (e.getD 0) < now then
    (false, sessionsDelete m token)
  else
    (true, sessionsSet m token (now + ttl))

end Sessions

section ClientIp

/-- Helper: a list is a Boolean prefix of itself followed by anything. -/
theorem isPrefixOf_append_self (l r : List Char) : l.isPrefixOf (l ++ r) = true := by
  induction l with
  | nil => simp [List.isPrefixOf]
  | cons c t ih => simpa [List.isPrefixOf] using ih

/-- Helper: a Boolean prefix is no longer than the whole. -/
theorem length_le_of_isPrefixOf (l₁ l₂ : List Char) (h : l₁.isPrefixOf l₂ = true) :
    l₁.length ≤ l₂.length := by
  induction l₁ generalizing l₂ with
  | nil => simp
  | cons c t ih =>
    cases l₂ with
    | nil => simp [List.isPrefixOf] at h
    | cons d u =>
      simp only [List.isPrefixOf, Bool.and_eq_true] at h
      simpa using ih u h.2

/-- The request-network data consulted by `getClientIp` — lines 143–155:
three proxy headers plus `req.socket.remoteAddress`, each possibly
absent. -/
structure ReqNet where
  cfConnectingIp : Option String
  xForwardedFor : Option String
  xRealIp : Option String
  remoteAddress : Option String

/-- One candidate of the `getClientIp` candidate array after
`.filter(Boolean)`: `none` when the raw value is absent or falsy
(empty) or when the projection `f` of it is empty. -/
def truthyCand (v : Option String) (f : String → String) : Option String :=
  match v with
  | none => none
  | some s =>
    if s = "" then none
    else
      let t := f s
      if t = "" then none else some t

/-- `function getClientIp(req)` — lines 143–155: first truthy candidate
among `cf-connecting-ip`, the trimmed first comma-entry of
`x-forwarded-for` (defaulted to `""` when absent), `x-real-ip` and the
socket remote address; `""` when none. -/
def getClientIp (r : ReqNet) : String :=
  let xfwd := r.xForwardedFor.getD ""
  let candidates := ([
    truthyCand r.cfConnectingIp (fun s => s),
    truthyCand (some xfwd) (fun s => jsTrim (splitCommaHead s)),
    truthyCand r.xRealIp (fun s => s),
    truthyCand r.remoteAddress (fun s => s)
  ] : List (Option String)).filterMap (fun x => x)
  candidates.headD ""

/-- The regex `/^172\.(1[6-9]|2[0-9]|3[0-1])\./` of line 166, spelled
out: the sixteen prefixes `172.16.` … `172.31.`. -/
def is172Range (ip : String) : Bool :=
  jsStartsWith ip "172.16." || jsStartsWith ip "172.17." ||
  jsStartsWith ip "172.18." || jsStartsWith ip "172.19." ||
  jsStartsWith ip "172.20." || jsStartsWith ip "172.21." ||
  jsStartsWith ip "172.22." || jsStartsWith ip "172.23." ||
  jsStartsWith ip "172.24." || jsStartsWith ip "172.25." ||
  jsStartsWith ip "172.26." || jsStartsWith ip "172.27." ||
  jsStartsWith ip "172.28." || jsStartsWith ip "172.29." ||
  jsStartsWith ip "172.30." || jsStartsWith ip "172.31."

/-- `function isPrivateIp(ip)` — lines 157–171.  The recursive call
models `ip.replace("::ffff:", "")`, which (the first occurrence being
the leading one) drops the 7-character mapped-IPv6 marker. -/
def isPrivateIp (ip : String) : Bool :=
  if ip = "" then true
  else if ip = "::1" || ip = "127.0.0.1" then true
  else if h : jsStartsWith ip "::ffff:" then isPrivateIp ⟨ip.data.drop 7⟩
  else
    jsStartsWith ip "10." || jsStartsWith ip "192.168." || is172Range ip ||
    jsStartsWith ip "127." || jsStartsWith ip "fe80:" || jsStartsWith ip "fd"
termination_by ip.data.length
decreasing_by
  have h7 : 7 ≤ ip.data.length := by
    simpa using length_le_of_isPrefixOf "::ffff:".data ip.data h
  have hne : ip.data ≠ [] := by
    intro hnil
    simp [hnil] at h7
  simp only [List.length_drop]
  omega

end ClientIp

section Geo

/-- The geo object built on lines 182–191 from the lookup response.
String-valued fields are `Option String` (`null` when the response
field was falsy/missing); `latitude`/`longitude` hold the canonical
decimal literal of the JSON number (`none` for `null`). -/
structure GeoRec where
  country : Option String
  country_code : Option String
  region : Option String
  city : Option String
  org : Option String
  asn : Option String
  latitude : Option String
  longitude : Option String
deriving DecidableEq

/-- Outcome of the outbound `fetch` in `geolocate`: a parsed geo object
on HTTP success, or one of the failure modes (non-2xx status, network
error, abort by the 3-second timer). -/
inductive FetchOutcome where
  | success (g : GeoRec)
  | httpError
  | netError
  | timedOut

/-- `async function geolocate(ip)` — lines 173–195: skip (return null)
when the lookup mode is `"off"`, the ip is empty or private; otherwise
the parsed geo object on success and null on any failure (the
`try`/`catch` turns network errors and timeouts into null, `!res.ok`
returns null). -/
def geolocate (mode : String) (outcome : FetchOutcome) (ip : String) : Option GeoRec :=
  if mode = "off" || ip = "" || isPrivateIp ip then none
  else
    match outcome with
    | .success g => some g
    | .httpError => none
    | .netError => none
    | .timedOut => none

end Geo

section Json

/-- Lower-case hex digit, as emitted by `JSON.stringify` in `\u00xx`
escapes. -/
def hexDigit (n : Nat) : Char :=
  if n < 10 then Char.ofNat ('0'.toNat + n) else Char.ofNat ('a'.toNat + (n - 10))

/-- `JSON.stringify` escaping of one character inside a string literal. -/
def escChar (c : Char) : List Char :=
  if c = '"' then ['\\', '"']
  else if c = '\\' then ['\\', '\\']
  else if c = '\x08' then ['\\', 'b']
  else if c = '\t' then ['\\', 't']
  else if c = '\n' then ['\\', 'n']
  else if c = '\x0c' then ['\\', 'f']
  else if c = '\r' then ['\\', 'r']
  else if c.toNat < 32 then
    ['\\', 'u', '0', '0', hexDigit (c.toNat / 16), hexDigit (c.toNat % 16)]
  else [c]

/-- Escaped body of a JSON string literal. -/
def escString (s : String) : List Char :=
  s.data.flatMap escChar

/-- A complete JSON string literal, quotes included. -/
def quoteString (s : String) : List Char :=
  '"' :: escString s ++ ['"']

/-- The JSON values appearing in the serialized `languages` and `geo`
columns: `null`, strings and numbers (a number carried as its
canonical decimal literal). -/
inductive Jv where
  | jnull
  | jstr (s : String)
  | jnum (lit : String)
deriving DecidableEq

/-- Serialization of one JSON value. -/
def stringifyJv : Jv → List Char
  | .jnull => ['n', 'u', 'l', 'l']
  | .jstr s => quoteString s
  | .jnum lit => lit.data

/-- Numeric value of a hex digit character (as accepted by `JSON.parse`
in a `\uXXXX` escape). -/
def hexVal (c : Char) : Option Nat :=
  if '0' ≤ c ∧ c ≤ '9' then some (c.toNat - '0'.toNat)
  else if 'a' ≤ c ∧ c ≤ 'f' then some (c.toNat - 'a'.toNat + 10)
  else if 'A' ≤ c ∧ c ≤ 'F' then some (c.toNat - 'A'.toNat + 10)
  else none

/-- `JSON.parse` decoding of a single-character escape. -/
def unescChar (e : Char) : Option Char :=
  if e = '"' then some '"'
  else if e = '\\' then some '\\'
  else if e = '/' then some '/'
  else if e = 'b' then some '\x08'
  else if e = 't' then some '\t'
  else if e = 'n' then some '\n'
  else if e = 'f' then some '\x0c'
  else if e = 'r' then some '\r'
  else none

/-- `JSON.parse` reading of a string-literal body: consume up to and
including the closing quote, undoing escapes; return the decoded
characters and the remaining input. -/
def unescape : List Char → Option (List Char × List Char)
  | [] => none
  | c :: rest =>
    if c = '"' then some ([], rest)
    else if c = '\\' then
      match rest with
      | 'u' :: h1 :: h2 :: h3 :: h4 :: rest2 =>
        match hexVal h1, hexVal h2, hexVal h3, hexVal h4 with
        | some a, some b, some c2, some d =>
          (unescape rest2).map (fun p => (Char.ofNat (((a * 16 + b) * 16 + c2) * 16 + d) :: p.1, p.2))
        | _, _, _, _ => none
      | e :: rest2 =>
        match unescChar e with
        | some d => (unescape rest2).map (fun p => (d :: p.1, p.2))
        | none => none
      | [] => none
    else (unescape rest).map (fun p => (c :: p.1, p.2))
termination_by l => l.length
decreasing_by all_goals simp_arith [List.length]

/-- Characters a JSON number literal may consist of. -/
def isNumChar (c : Char) : Bool :=
  isDigitChar c || c = '.' || c = '-' || c = '+' || c = 'e' || c = 'E'

/-- `JSON.parse` reading of one value (restricted to the grammar the
store actually serializes: `null`, strings, numbers). -/
def parseJv (input : List Char) : Option (Jv × List Char) :=
  match input with
  | [] => none
  | c :: rest =>
    if c = '"' then (unescape rest).map (fun p => (.jstr ⟨p.1⟩, p.2))
    else if c = 'n' then
      match rest with
      | 'u' :: 'l' :: 'l' :: rest2 => some (.jnull, rest2)
      | _ => none
    else
      let ds := (c :: rest).takeWhile isNumChar
      if ds = [] then none else some (.jnum ⟨ds⟩, (c :: rest).drop ds.length)

/-- Consume an exact character sequence. -/
def expectChars (pat : List Char) (input : List Char) : Option (List Char) :=
  if pat.isPrefixOf input then some (input.drop pat.length) else none

end Json

section StoreModel

/-- The payload object built by `app.post("/api/track")` — lines
274–290 — before serialization: sanitized fields, consented language
list, optional geo enrichment. -/
structure Payload where
  id : String
  ts : String
  ip : String
  ua : Option String
  page : Option String
  referrer : Option String
  tz : Option String
  languages : List String
  screen : Option String
  geo : Option GeoRec
deriving DecidableEq

/-- One row of the `visits` table (lines 100–111): the payload columns
as bound by `insertVisit.run`, plus the SQLite `rowid`.  `languages`
is the JSON text `JSON.stringify` produced (always a string); `geo` is
JSON text or NULL. -/
structure Row where
  rowid : Nat
  id : String
  ts : String
  ip : String
  ua : Option String
  page : Option String
  referrer : Option String
  tz : Option String
  languages : String
  screen : Option String
  geo : Option String
deriving DecidableEq

/-- Items of `JSON.stringify` on a non-empty string array, starting
after the opening bracket: each element quoted, separated by commas,
closed by `]`. -/
def langsItemsChars : List String → List Char
  | [] => [']']
  | [l] => quoteString l ++ [']']
  | l :: ls => quoteString l ++ ',' :: langsItemsChars ls

/-- `JSON.stringify(consentedLanguages)` — line 282. -/
def stringifyLangs (ls : List String) : String :=
  match ls with
  | [] => "[]"
  | _ => ⟨'[' :: langsItemsChars ls⟩

/-- `JSON.parse` on the `languages` column (a JSON array of strings),
whole-input; the fuel is bounded by the input length since every item
consumes at least three characters. -/
def parseLangsItems (fuel : Nat) (input : List Char) : Option (List String × List Char) :=
  match fuel with
  | 0 => none
  | fuel + 1 =>
    match input with
    | [] => none
    | c :: rest =>
      if c = '"' then
        (unescape rest).bind fun sr =>
          match sr.2 with
          | [] => none
          | d :: r2 =>
            if d = ',' then
              (parseLangsItems fuel r2).map (fun p => ((⟨sr.1⟩ : String) :: p.1, p.2))
            else if d = ']' then some ([⟨sr.1⟩], r2)
            else none
      else none

/-- `JSON.parse(row.languages)` — line 316 — for the array-of-strings
grammar the column always holds; `none` models a parse error. -/
def parseLangs (s : String) : Option (List String) :=
  match s.data with
  | [] => none
  | c :: rest =>
    if c = '[' then
      match rest with
      | [] => none
      | d :: rest2 =>
        if d = ']' then (if rest2 = [] then some [] else none)
        else
          match parseLangsItems rest.length rest with
          | some (ls, r) => if r = [] then some ls else none
          | none => none
    else none

/-- A string-valued geo field as a JSON value (`j.x || null`). -/
def geoStrJv (v : Option String) : Jv :=
  match v with
  | none => .jnull
  | some s => .jstr s

/-- A number-valued geo field as a JSON value (`j.latitude ?? null`). -/
def geoNumJv (v : Option String) : Jv :=
  match v with
  | none => .jnull
  | some lit => .jnum lit

/-- One `"key":value` chunk of a serialized JSON object, ending with
the separator that follows it (`,` between fields, `}` at the end). -/
def geoFieldChars (key : String) (v : Jv) (sep : Char) : List Char :=
  '"' :: key.data ++ ['"', ':'] ++ stringifyJv v ++ [sep]

/-- `JSON.stringify(geo)` — line 289 — with the object-literal key
order of lines 182–191 (insertion order, no whitespace). -/
def stringifyGeo (g : GeoRec) : String :=
  ⟨'{' :: (geoFieldChars "country" (geoStrJv g.country) ',' ++
    (geoFieldChars "country_code" (geoStrJv g.country_code) ',' ++
    (geoFieldChars "region" (geoStrJv g.region) ',' ++
    (geoFieldChars "city" (geoStrJv g.city) ',' ++
    (geoFieldChars "org" (geoStrJv g.org) ',' ++
    (geoFieldChars "asn" (geoStrJv g.asn) ',' ++
    (geoFieldChars "latitude" (geoNumJv g.latitude) ',' ++
    geoFieldChars "longitude" (geoNumJv g.longitude) '}')))))))⟩

/-- Parse one `"key":value` pair followed by the separator `sep`. -/
def parseGeoField (key : String) (sep : Char) (input : List Char) :
    Option (Jv × List Char) :=
  (expectChars ('"' :: key.data ++ ['"', ':']) input).bind fun r =>
  (parseJv r).bind fun vr =>
    match vr.2 with
    | c :: r3 => if c = sep then some (vr.1, r3) else none
    | [] => none

/-- Read a string-or-null geo field back from its JSON value. -/
def jvStrField : Jv → Option (Option String)
  | .jnull => some none
  | .jstr s => some (some s)
  | .jnum _ => none

/-- Read a number-or-null geo field back from its JSON value. -/
def jvNumField : Jv → Option (Option String)
  | .jnull => some none
  | .jnum l => some (some l)
  | .jstr _ => none

/-- The field sequence of the geo object, parsed after the opening
brace. -/
def parseGeoBody (rest : List Char) : Option GeoRec :=
  (parseGeoField "country" ',' rest).bind fun p1 =>
  (parseGeoField "country_code" ',' p1.2).bind fun p2 =>
  (parseGeoField "region" ',' p2.2).bind fun p3 =>
  (parseGeoField "city" ',' p3.2).bind fun p4 =>
  (parseGeoField "org" ',' p4.2).bind fun p5 =>
  (parseGeoField "asn" ',' p5.2).bind fun p6 =>
  (parseGeoField "latitude" ',' p6.2).bind fun p7 =>
  (parseGeoField "longitude" '}' p7.2).bind fun p8 =>
  if p8.2 = [] then
    (jvStrField p1.1).bind fun c1 =>
    (jvStrField p2.1).bind fun c2 =>
    (jvStrField p3.1).bind fun c3 =>
    (jvStrField p4.1).bind fun c4 =>
    (jvStrField p5.1).bind fun c5 =>
    (jvStrField p6.1).bind fun c6 =>
    (jvNumField p7.1).bind fun c7 =>
    (jvNumField p8.1).bind fun c8 =>
    some ⟨c1, c2, c3, c4, c5, c6, c7, c8⟩
  else none

/-- `JSON.parse(row.geo)` — line 318 — for the fixed-shape object the
column always holds; `none` models a `JSON.parse` exception. -/
def parseGeo (s : String) : Option GeoRec :=
  match s.data with
  | [] => none
  | c :: rest => if c = '{' then parseGeoBody rest else none

/-- `insertVisit.run(payload)` — lines 116–119 and 292: the bound row
as stored, `rowid` being the rowid SQLite assigns on insertion. -/
def insertVisit (rowid : Nat) (p : Payload) : Row :=
  { rowid := rowid
    id := p.id
    ts := p.ts
    ip := p.ip
    ua := p.ua
    page := p.page
    referrer := p.referrer
    tz := p.tz
    languages := stringifyLangs p.languages
    screen := p.screen
    geo := p.geo.map stringifyGeo }

/-- A record as returned by `GET /api/visitors` (lines 308–319). -/
structure RespRecord where
  id : String
  ts : String
  ip : String
  ua : Option String
  page : Option String
  referrer : Option String
  tz : Option String
  languages : List String
  screen : Option String
  geo : Option GeoRec
deriving DecidableEq

/-- The row-to-response mapping of lines 308–319:
`languages: row.languages ? JSON.parse(row.languages) : []` and
`geo: row.geo ? JSON.parse(row.geo) : null`.  `none` models a
`JSON.parse` exception (which would escape the handler). -/
def rowToResp (r : Row) : Option RespRecord :=
  let langs : Option (List String) :=
    if r.languages = "" then some [] else parseLangs r.languages
  match langs with
  | none => none
  | some ls =>
    match r.geo with
    | none =>
      some ⟨r.id, r.ts, r.ip, r.ua, r.page, r.referrer, r.tz, ls, r.screen, none⟩
    | some gs =>
      (parseGeo gs).map (fun g =>
        ⟨r.id, r.ts, r.ip, r.ua, r.page, r.referrer, r.tz, ls, r.screen, some g⟩)

end StoreModel

section Queries

/-- The `ORDER BY ts ASC, rowid ASC` comparison of the prune statement
(line 131): timestamp text ascending (SQLite TEXT comparison, which on
the stored ISO strings is lexicographic), rowid as tiebreak. -/
def tsRowidLe (a b : Row) : Bool :=
  decide (a.ts < b.ts) || (decide (a.ts = b.ts) && decide (a.rowid ≤ b.rowid))

/-- `pruneVisits.run(excess)` — lines 127–134: delete the rows whose
rowid is among the first `excess` in `ORDER BY ts ASC, rowid ASC`
order. -/
def pruneVisits (store : List Row) (excess : Nat) : List Row :=
  let victims := ((store.mergeSort tsRowidLe).take excess).map Row.rowid
  store.filter (fun r => ¬ victims.contains r.rowid)

/-- `function pruneIfNeeded()` — lines 136–141 — with the record cap as
parameter. -/
def pruneIfNeeded (maxRecords : Nat) (store : List Row) : List Row :=
  if store.length ≤ maxRecords then store
  else pruneVisits store (store.length - maxRecords)

/-- The `ORDER BY ts DESC` comparison of `selectVisits` (line 123). -/
def tsDesc (a b : Row) : Bool :=
  decide (b.ts ≤ a.ts)

/-- `selectVisits.all(limit)` — lines 120–125: rows in timestamp
descending order, at most `limit` of them. -/
def selectVisits (store : List Row) (limit : Nat) : List Row :=
  (store.mergeSort tsDesc).take limit

/-- The limit computation of `GET /api/visitors` — lines 306–307:
`parseInt(query.limit ?? "200")`, then `min(limit, 1000)` when finite
and positive, `200` otherwise. -/
def safeLimit (qlimit : Option String) : Nat :=
  match parseIntJs (qlimit.getD "200") with
  | some n => if 0 < n then min n.toNat 1000 else 200
  | none => 200

end Queries

section Handlers

/-- The track request body fields as read on lines 270–283; `languages`
is `some` exactly when `Array.isArray(req.body?.languages)`, its
entries post the `String(lang)` coercion. -/
structure TrackBody where
  page : JsValue
  referrer : JsValue
  tz : JsValue
  screen : JsValue
  languages : Option (List String)

/-- `consentedLanguages` — lines 270–272: sanitize each entry to 32
characters, drop the falsy ones, keep at most 10. -/
def consentedLanguages (body : TrackBody) : List String :=
  match body.languages with
  | some ls =>
    ((ls.map (fun l => sanitizeString (.str l) 32)).filterMap (fun x => x)).take 10
  | none => []

/-- The payload construction of `app.post("/api/track")` — lines
268–290 — given the assigned id, timestamp, derived client ip, the
user-agent header (already string-coerced, `""` when absent) and the
geolocation outcome. -/
def trackPayload (id ts ip ua : String) (body : TrackBody) (geo : Option GeoRec) :
    Payload :=
  { id := id
    ts := ts
    ip := ip
    ua := sanitizeString (.str ua) 1024
    page := sanitizeString body.page 512
    referrer := sanitizeString body.referrer 512
    tz := sanitizeString body.tz 128
    languages := consentedLanguages body
    screen := sanitizeString body.screen 64
    geo := geo }

/-- The whole `app.post("/api/track")` handler — lines 265–299: derive
the client ip, geolocate, build the payload, insert, prune; respond
201 with the new id. -/
def trackHandler (mode : String) (outcome : FetchOutcome) (maxRecords : Nat)
    (id ts : String) (net : ReqNet) (ua : String) (body : TrackBody)
    (store : List Row) (newRowid : Nat) : Nat × Payload × List Row :=
  let ip := getClientIp net
  let geo := geolocate mode outcome ip
  let payload := trackPayload id ts ip ua body geo
  (201, payload, pruneIfNeeded maxRecords (store ++ [insertVisit newRowid payload]))

/-- What `app.post("/api/login")` does with the submitted password
before any verification (lines 240–244). -/
inductive LoginStep where
  | badRequest
  | verifyCandidate (candidate : String)
deriving DecidableEq

/-- `sanitizeString(req.body?.password ?? "", 256)` — line 241: the
password handed to `verifyPassword`, or `none` (a 400 response,
verifier never invoked). -/
def loginPassword (bodyPassword : Option JsValue) : Option String :=
  sanitizeString (bodyPassword.getD (.str "")) 256

/-- Lines 240–247: 400 when the sanitized password is falsy, otherwise
`verifyPassword` is invoked on it. -/
def loginHandler (bodyPassword : Option JsValue) : LoginStep :=
  match loginPassword bodyPassword with
  | none => .badRequest
  | some p => .verifyCandidate p

end Handlers

section SharedLemmas

theorem length_mk (l : List Char) : (⟨l⟩ : String).length = l.length := rfl

theorem mk_eq_empty_iff (l : List Char) : ((⟨l⟩ : String) = "") ↔ l = [] := by
  constructor
  · intro h
    have := congrArg String.data h
    simpa using this
  · intro h
    subst h
    rfl

theorem jsSlice_length_le (s : String) (max : Nat) : (jsSlice s max).length ≤ max := by
  simpa [jsSlice, length_mk] using List.length_take_le max s.data

theorem jsSlice_ne_empty (s : String) (max : Nat) (hs : s ≠ "") (hm : 0 < max) :
    jsSlice s max ≠ "" := by
  simp only [jsSlice, ne_eq, mk_eq_empty_iff]
  intro h
  rcases List.take_eq_nil_iff.mp h with h0 | hnil
  · omega
  · exact hs (by cases s; simpa [mk_eq_empty_iff] using hnil)

theorem sanitizeString_some_iff (v : JsValue) (max : Nat) (s : String) :
    sanitizeString v max = some s ↔
      ∃ o, v = .str o ∧ jsTrim o ≠ "" ∧ s = jsSlice (jsTrim o) max := by
  cases v with
  | str o =>
    simp only [sanitizeString]
    by_cases h : jsTrim o = ""
    · simp [h]
    · simp only [if_neg h, Option.some.injEq, JsValue.str.injEq]
      constructor
      · intro hs
        exact ⟨o, rfl, h, hs.symm⟩
      · rintro ⟨o2, ho2, _, hs⟩
        cases ho2
        exact hs.symm
  | other => simp [sanitizeString]

theorem sanitizeString_none (v : JsValue) (max : Nat)
    (h : v = .other ∨ ∃ o, v = .str o ∧ jsTrim o = "") :
    sanitizeString v max = none := by
  rcases h with h | ⟨o, ho, htrim⟩
  · subst h; rfl
  · subst ho; simp [sanitizeString, htrim]

end SharedLemmas

/-- C1: for every candidate that is not a string or is a string shorter
than 12 characters, `verifyPassword` returns false without invoking the
key-derivation function; for every other candidate it derives a hash
whose byte length equals the stored hash's byte length (the requested
key length being `storedHash.length`, and scrypt honouring the
requested length) before comparing. -/
theorem C1_verifyPassword (scrypt : String → Nat → List Nat) (storedHash : List Nat)
    (hscrypt : ∀ pw len, (scrypt pw len).length = len) (candidate : JsValue) :
    ((candidate = .other ∨ ∃ s, candidate = .str s ∧ s.length < 12) →
      verifyPassword scrypt storedHash candidate = ⟨false, none, false⟩) ∧
    (∀ s, candidate = .str s → 12 ≤ s.length →
      (verifyPassword scrypt storedHash candidate).invokedKdf = true ∧
      (verifyPassword scrypt storedHash candidate).derived =
        some (scrypt s storedHash.length) ∧
      (scrypt s storedHash.length).length = storedHash.length ∧
      (verifyPassword scrypt storedHash candidate).result =
        decide (scrypt s storedHash.length = storedHash)) := by
  constructor
  · rintro (h | ⟨s, hs, hlt⟩)
    · subst h; rfl
    · subst hs
      simp [verifyPassword, hlt]
  · intro s hs hge
    subst hs
    have hnot : ¬ s.length < 12 := by omega
    refine ⟨?_, ?_, hscrypt s storedHash.length, ?_⟩ <;>
      simp [verifyPassword, hnot]

theorem C1_verifyPassword_witness :
    verifyPassword (fun _ len => List.replicate len 0) [1, 2, 3] (.str "shortpw") =
      ⟨false, none, false⟩ :=
  (C1_verifyPassword (fun _ len => List.replicate len 0) [1, 2, 3]
      (fun _ len => List.length_replicate len 0) (.str "shortpw")).1
    (Or.inr ⟨"shortpw", rfl, by decide⟩)

/-- C2: `authenticate` returns false when the token is absent or its
stored expiry is earlier than `now` (deleting the expired entry), and
when present and unexpired it sets the expiry to `now + ttl` and
returns true; an expired entry is treated as absent on the next
access. -/
theorem C2_authenticate (m : SessionMap) (now ttl : Int) (token : String)
    (hnow : 0 < now) :
    (m token = none → (authenticate m now ttl token).1 = false) ∧
    (∀ e, m token = some e → e < now →
      (authenticate m now ttl token).1 = false ∧
      (authenticate m now ttl token).2 token = none ∧
      (authenticate (authenticate m now ttl token).2 now ttl token).1 = false) ∧
    (∀ e, m token = some e → now ≤ e →
      (authenticate m now ttl token).1 = true ∧
      (authenticate m now ttl token).2 token = some (now + ttl)) := by
  refine ⟨?_, ?_, ?_⟩
  · intro h
    simp [authenticate, h, expiryFalsy]
  · intro e he hlt
    have h1 : (authenticate m now ttl token).1 = false := by
      by_cases h0 : e = 0 <;> simp [authenticate, he, expiryFalsy, h0, hlt]
    have h2 : (authenticate m now ttl token).2 token = none := by
      by_cases h0 : e = 0 <;>
        simp [authenticate, he, expiryFalsy, h0, hlt, sessionsDelete]
    refine ⟨h1, h2, ?_⟩
    generalize hX : (authenticate m now ttl token).2 = X at h2
    simp [authenticate, expiryFalsy, h2]
  · intro e he hge
    have h0 : ¬ e = 0 := by omega
    have hlt : ¬ e < now := by omega
    constructor <;> simp [authenticate, he, expiryFalsy, h0, hlt, sessionsSet]

theorem C2_authenticate_witness :
    (authenticate (fun t => if t = "tok" then some 10 else none) 5 7 "tok").1 = true ∧
    (authenticate (fun t => if t = "tok" then some 10 else none) 5 7 "tok").2 "tok" =
      some 12 :=
  (C2_authenticate (fun t => if t = "tok" then some 10 else none) 5 7 "tok"
      (by decide)).2.2 10 (by simp) (by decide)

/-- C9 counterexample: with `SESSION_MINUTES` set to the non-numeric
string `"x"`, `Number.parseInt` yields NaN and `Math.max(5, NaN)` is
NaN, so the effective TTL is NaN — not a duration of at least 5
minutes. -/
theorem C9_counterexample :
    ¬ ∃ n, sessionMinutes (some "x") = some n ∧ 5 ≤ n := by
  rintro ⟨n, hn, -⟩
  have : sessionMinutes (some "x") = none := by decide
  rw [this] at hn
  exact Option.noConfusion hn

/-- C9 (amended): for every value of `SESSION_MINUTES` that
`Number.parseInt` parses to a number, the effective session TTL is
`max 5 n` minutes, hence at least 5 minutes; it is 30 minutes when no
value is configured.  (A non-numeric value yields NaN: no floor is
enforced there.) -/
theorem C9_sessionMinutes (env : Option String) :
    (env = none →
      sessionMinutes env = some 30 ∧ sessionTtlMs env = some (30 * 60 * 1000)) ∧
    (∀ s n, env = some s → parseIntJs s = some n →
      ∃ m, sessionMinutes env = some m ∧ 5 ≤ m ∧
        sessionTtlMs env = some (m * 60 * 1000) ∧
        5 * 60 * 1000 ≤ m * 60 * 1000) := by
  constructor
  · intro h
    subst h
    constructor <;> decide
  · intro s n hs hparse
    subst hs
    refine ⟨max 5 n, ?_, le_max_left 5 n, ?_, ?_⟩
    · simp [sessionMinutes, hparse, jsMax]
    · simp [sessionTtlMs, sessionMinutes, hparse, jsMax]
    · have : (5 : Int) ≤ max 5 n := le_max_left 5 n
      omega

theorem C9_sessionMinutes_witness :
    ∃ m, sessionMinutes (some "45") = some m ∧ 5 ≤ m ∧
      sessionTtlMs (some "45") = some (m * 60 * 1000) ∧
      5 * 60 * 1000 ≤ m * 60 * 1000 :=
  (C9_sessionMinutes (some "45")).2 "45" 45 rfl (by decide)

/-- C10: the login endpoint trims the submitted password and truncates
it to 256 characters before verification, so the verifier only ever
receives the first 256 characters of the trimmed submission (hence a
passphrase longer than 256 characters can never be matched), and a
missing, non-string or whitespace-only password yields a 400 response
without invoking the verifier. -/
theorem C10_loginPassword (bodyPassword : Option JsValue) :
    (∀ s, bodyPassword = some (.str s) → jsTrim s = "" →
      loginHandler bodyPassword = .badRequest) ∧
    (bodyPassword = none → loginHandler bodyPassword = .badRequest) ∧
    (bodyPassword = some .other → loginHandler bodyPassword = .badRequest) ∧
    (∀ c, loginHandler bodyPassword = .verifyCandidate c →
      c.length ≤ 256 ∧ ∃ s, bodyPassword = some (.str s) ∧
        c = jsSlice (jsTrim s) 256) ∧
    (∀ pw : String, 256 < pw.length →
      ∀ c, loginHandler bodyPassword = .verifyCandidate c → c ≠ pw) := by
  have hver : ∀ c, loginHandler bodyPassword = .verifyCandidate c →
      c.length ≤ 256 ∧ ∃ s, bodyPassword = some (.str s) ∧
        c = jsSlice (jsTrim s) 256 := by
    intro c hc
    unfold loginHandler at hc
    rcases hp : loginPassword bodyPassword with - | p
    · rw [hp] at hc
      exact absurd hc (by simp)
    · rw [hp] at hc
      have hcp : c = p := by
        have := hc
        simp only [LoginStep.verifyCandidate.injEq] at this
        exact this.symm
      subst hcp
      unfold loginPassword at hp
      rcases sanitizeString_some_iff (bodyPassword.getD (.str "")) 256 c |>.mp hp
        with ⟨o, ho, htrim, hval⟩
      refine ⟨hval ▸ jsSlice_length_le (jsTrim o) 256, ?_⟩
      cases bodyPassword with
      | none =>
        simp only [Option.getD] at ho
        cases ho
        exact absurd rfl htrim
      | some v =>
        simp only [Option.getD] at ho
        exact ⟨o, by rw [ho], hval⟩
  refine ⟨?_, ?_, ?_, hver, ?_⟩
  · intro s hs htrim
    subst hs
    simp [loginHandler, loginPassword, sanitizeString, htrim]
  · intro h
    subst h
    simp [loginHandler, loginPassword, sanitizeString, jsTrim]
  · intro h
    subst h
    simp [loginHandler, loginPassword, sanitizeString]
  · intro pw hpw c hc hcpw
    rcases hver c hc with ⟨hle, -⟩
    rw [hcpw] at hle
    omega

theorem C10_loginPassword_witness :
    loginHandler (some (.str "   ")) = .badRequest :=
  (C10_loginPassword (some (.str "   "))).1 "   " rfl (by decide)

/-- C5: the derived client origin is the first present (non-empty)
value in the priority order `cf-connecting-ip`, first comma-entry of
`x-forwarded-for` (trimmed), `x-real-ip`, transport-layer remote
address; the empty string when none is present. -/
theorem C5_getClientIp (r : ReqNet) :
    (∀ s, r.cfConnectingIp = some s → s ≠ "" → getClientIp r = s) ∧
    ((r.cfConnectingIp = none ∨ r.cfConnectingIp = some "") →
      ∀ x, r.xForwardedFor = some x → jsTrim (splitCommaHead x) ≠ "" →
        getClientIp r = jsTrim (splitCommaHead x)) ∧
    ((r.cfConnectingIp = none ∨ r.cfConnectingIp = some "") →
      jsTrim (splitCommaHead (r.xForwardedFor.getD "")) = "" →
      ∀ s, r.xRealIp = some s → s ≠ "" → getClientIp r = s) ∧
    ((r.cfConnectingIp = none ∨ r.cfConnectingIp = some "") →
      jsTrim (splitCommaHead (r.xForwardedFor.getD "")) = "" →
      (r.xRealIp = none ∨ r.xRealIp = some "") →
      ∀ s, r.remoteAddress = some s → s ≠ "" → getClientIp r = s) ∧
    ((r.cfConnectingIp = none ∨ r.cfConnectingIp = some "") →
      jsTrim (splitCommaHead (r.xForwardedFor.getD "")) = "" →
      (r.xRealIp = none ∨ r.xRealIp = some "") →
      (r.remoteAddress = none ∨ r.remoteAddress = some "") →
      getClientIp r = "") := by
  have hempty : ∀ (v : Option String) (f : String → String),
      (v = none ∨ v = some "") → truthyCand v f = none := by
    rintro v f (h | h) <;> subst h <;> simp [truthyCand]
  have hxfnone : jsTrim (splitCommaHead (r.xForwardedFor.getD "")) = "" →
      truthyCand (some (r.xForwardedFor.getD ""))
        (fun s => jsTrim (splitCommaHead s)) = none := by
    intro h
    by_cases hx : r.xForwardedFor.getD "" = "" <;> simp [truthyCand, hx, h]
  have hsome : ∀ (v : Option String) (s : String), v = some s → s ≠ "" →
      truthyCand v (fun s => s) = some s := by
    intro v s hv hne
    subst hv
    simp [truthyCand, hne]
  refine ⟨?_, ?_, ?_, ?_, ?_⟩
  · intro s hs hne
    have h1 := hsome _ _ hs hne
    simp [getClientIp, h1]
  · intro hcf x hx hne
    have hxne : x ≠ "" := by
      intro h
      subst h
      exact hne (by decide)
    have h1 := hempty _ (fun s => s) hcf
    have h2 : truthyCand (some (r.xForwardedFor.getD ""))
        (fun s => jsTrim (splitCommaHead s)) = some (jsTrim (splitCommaHead x)) := by
      rw [hx]
      simp [truthyCand, hxne, hne]
    simp [getClientIp, h1, h2]
  · intro hcf hxf s hs hne
    have h1 := hempty _ (fun s => s) hcf
    have h2 := hxfnone hxf
    have h3 := hsome _ _ hs hne
    simp [getClientIp, h1, h2, h3]
  · intro hcf hxf hreal s hs hne
    have h1 := hempty _ (fun s => s) hcf
    have h2 := hxfnone hxf
    have h3 := hempty _ (fun s => s) hreal
    have h4 := hsome _ _ hs hne
    simp [getClientIp, h1, h2, h3, h4]
  · intro hcf hxf hreal hrem
    have h1 := hempty _ (fun s => s) hcf
    have h2 := hxfnone hxf
    have h3 := hempty _ (fun s => s) hreal
    have h4 := hempty _ (fun s => s) hrem
    simp [getClientIp, h1, h2, h3, h4]

theorem C5_getClientIp_witness :
    getClientIp ⟨none, some "1.2.3.4, 5.6.7.8", none, some "9.9.9.9"⟩ = "1.2.3.4" := by
  have h := (C5_getClientIp ⟨none, some "1.2.3.4, 5.6.7.8", none, some "9.9.9.9"⟩).2.1
    (Or.inl rfl) "1.2.3.4, 5.6.7.8" rfl (by decide)
  rw [h]
  decide

/-- C4: each free-text field of an ingested payload is stored only if
it is a string that is non-empty after trimming, truncated to its
field-specific maximum (user-agent 1024, page 512, referrer 512,
timezone 128, screen 64); a failing field is stored as absent; the
languages list keeps at most 10 entries, each sanitized (non-empty,
at most 32 characters). -/
theorem C4_trackSanitization (id ts ip ua : String) (body : TrackBody)
    (geo : Option GeoRec) :
    (trackPayload id ts ip ua body geo).ua = sanitizeString (.str ua) 1024 ∧
    (trackPayload id ts ip ua body geo).page = sanitizeString body.page 512 ∧
    (trackPayload id ts ip ua body geo).referrer = sanitizeString body.referrer 512 ∧
    (trackPayload id ts ip ua body geo).tz = sanitizeString body.tz 128 ∧
    (trackPayload id ts ip ua body geo).screen = sanitizeString body.screen 64 ∧
    (∀ v max s, 0 < max → sanitizeString v max = some s →
      s.length ≤ max ∧ s ≠ "" ∧
        ∃ o, v = .str o ∧ jsTrim o ≠ "" ∧ s = jsSlice (jsTrim o) max) ∧
    (∀ (v : JsValue) (max : Nat),
      (v = .other ∨ ∃ o, v = .str o ∧ jsTrim o = "") →
      sanitizeString v max = none) ∧
    (trackPayload id ts ip ua body geo).languages.length ≤ 10 ∧
    (∀ l ∈ (trackPayload id ts ip ua body geo).languages,
      l.length ≤ 32 ∧ l ≠ "") := by
  refine ⟨rfl, rfl, rfl, rfl, rfl, ?_, sanitizeString_none, ?_, ?_⟩
  · intro v max s hmax hs
    rcases (sanitizeString_some_iff v max s).mp hs with ⟨o, ho, htrim, hval⟩
    exact ⟨hval ▸ jsSlice_length_le _ _, hval ▸ jsSlice_ne_empty _ _ htrim hmax,
      o, ho, htrim, hval⟩
  · simp only [trackPayload, consentedLanguages]
    cases body.languages with
    | none => simp
    | some ls => simpa using List.length_take_le 10 _
  · intro l hl
    simp only [trackPayload, consentedLanguages] at hl
    cases hb : body.languages with
    | none =>
      rw [hb] at hl
      simp at hl
    | some ls =>
      rw [hb] at hl
      have hl2 : l ∈ (ls.map (fun x => sanitizeString (.str x) 32)).filterMap
          (fun x => x) := (List.take_sublist 10 _).subset hl
      rcases List.mem_filterMap.mp hl2 with ⟨a, ha, haeq⟩
      rcases List.mem_map.mp ha with ⟨x, -, hxeq⟩
      have hsan : sanitizeString (.str x) 32 = some l := hxeq.trans haeq
      rcases (sanitizeString_some_iff _ _ _).mp hsan with ⟨o, -, htrim, hval⟩
      exact ⟨hval ▸ jsSlice_length_le _ _,
        hval ▸ jsSlice_ne_empty _ _ htrim (by omega)⟩

theorem C4_trackSanitization_witness :
    ("hi" : String).length ≤ 4 ∧ ("hi" : String) ≠ "" ∧
      ∃ o, JsValue.str " hi " = .str o ∧ jsTrim o ≠ "" ∧
        ("hi" : String) = jsSlice (jsTrim o) 4 :=
  (C4_trackSanitization "" "" "" "" ⟨.other, .other, .other, .other, none⟩
      none).2.2.2.2.2.1 (.str " hi ") 4 "hi" (by decide) (by decide)

theorem tsDesc_total (a b : Row) : (tsDesc a b || tsDesc b a) = true := by
  simpa [tsDesc] using le_total b.ts a.ts

theorem tsDesc_trans (a b c : Row) :
    tsDesc a b = true → tsDesc b c = true → tsDesc a c = true := by
  simp only [tsDesc, decide_eq_true_eq]
  exact fun h1 h2 => le_trans h2 h1

/-- C7: `list` returns at most `min(limit, 1000)` records ordered by
timestamp descending; an unspecified, non-numeric, zero or negative
limit is replaced by 200; the returned records are the most recent
ones. -/
theorem C7_selectVisits (store : List Row) (qlimit : Option String) :
    (qlimit = none → safeLimit qlimit = 200) ∧
    (∀ s, qlimit = some s → parseIntJs s = none → safeLimit qlimit = 200) ∧
    (∀ s n, qlimit = some s → parseIntJs s = some n → n ≤ 0 →
      safeLimit qlimit = 200) ∧
    (∀ s n, qlimit = some s → parseIntJs s = some n → 0 < n →
      safeLimit qlimit = min n.toNat 1000) ∧
    safeLimit qlimit ≤ 1000 ∧
    (selectVisits store (safeLimit qlimit)).length =
      min (safeLimit qlimit) store.length ∧
    List.Pairwise (fun a b => b.ts ≤ a.ts) (selectVisits store (safeLimit qlimit)) ∧
    (∀ a ∈ selectVisits store (safeLimit qlimit), ∀ b ∈ store,
      b ∉ selectVisits store (safeLimit qlimit) → b.ts ≤ a.ts) := by
  have hsorted : List.Pairwise (fun a b => tsDesc a b = true)
      (store.mergeSort tsDesc) :=
    List.sorted_mergeSort tsDesc_trans tsDesc_total store
  refine ⟨?_, ?_, ?_, ?_, ?_, ?_, ?_, ?_⟩
  · intro h
    subst h
    decide
  · intro s hs hparse
    subst hs
    simp [safeLimit, hparse]
  · intro s n hs hparse hn
    subst hs
    have : ¬ (0 : Int) < n := by omega
    simp [safeLimit, hparse, this]
  · intro s n hs hparse hn
    subst hs
    simp [safeLimit, hparse, hn]
  · rcases h : parseIntJs (qlimit.getD "200") with - | n
    · simp [safeLimit, h]
    · by_cases hn : (0 : Int) < n <;> simp [safeLimit, h, hn] <;> omega
  · simp [selectVisits, List.length_take, List.length_mergeSort]
  · exact (List.Pairwise.sublist (List.take_sublist _ _) hsorted).imp
      (by simp only [tsDesc, decide_eq_true_eq]; exact fun h => h)
  · intro a ha b hb hbn
    set k := safeLimit qlimit with hk
    have hbm : b ∈ store.mergeSort tsDesc := List.mem_mergeSort.mpr hb
    rw [← List.take_append_drop k (store.mergeSort tsDesc)] at hbm
    have hbd : b ∈ (store.mergeSort tsDesc).drop k := by
      rcases List.mem_append.mp hbm with h | h
      · exact absurd h hbn
      · exact h
    have hpair : List.Pairwise (fun a b => tsDesc a b = true)
        ((store.mergeSort tsDesc).take k ++ (store.mergeSort tsDesc).drop k) := by
      rwa [List.take_append_drop]
    have := (List.pairwise_append.mp hpair).2.2 a ha b hbd
    simpa [tsDesc] using this

theorem C7_selectVisits_witness :
    safeLimit (some "3") = min (3 : Int).toNat 1000 :=
  (C7_selectVisits [] (some "3")).2.2.2.1 "3" 3 rfl (by decide) (by decide)

theorem tsRowidLe_total (a b : Row) : (tsRowidLe a b || tsRowidLe b a) = true := by
  simp only [tsRowidLe, Bool.or_eq_true, Bool.and_eq_true, decide_eq_true_eq]
  rcases lt_trichotomy a.ts b.ts with h | h | h
  · exact Or.inl (Or.inl h)
  · by_cases hr : a.rowid ≤ b.rowid
    · exact Or.inl (Or.inr ⟨h, hr⟩)
    · exact Or.inr (Or.inr ⟨h.symm, by omega⟩)
  · exact Or.inr (Or.inl h)

theorem tsRowidLe_trans (a b c : Row) :
    tsRowidLe a b = true → tsRowidLe b c = true → tsRowidLe a c = true := by
  simp only [tsRowidLe, Bool.or_eq_true, Bool.and_eq_true, decide_eq_true_eq]
  rintro (h1 | ⟨h1, h1r⟩) (h2 | ⟨h2, h2r⟩)
  · exact Or.inl (lt_trans h1 h2)
  · exact Or.inl (h2 ▸ h1)
  · exact Or.inl (h1 ▸ h2)
  · exact Or.inr ⟨h1.trans h2, le_trans h1r h2r⟩

/-- Helper: under unique rowids, the prune deletion leaves exactly the
rows past the first `k` of the `ts ASC, rowid ASC` order (as a
multiset). -/
theorem pruneVisits_perm (store : List Row) (k : Nat)
    (hnodup : (store.map Row.rowid).Nodup) :
    (pruneVisits store k).Perm ((store.mergeSort tsRowidLe).drop k) := by
  have hperm : (store.mergeSort tsRowidLe).Perm store :=
    List.mergeSort_perm store tsRowidLe
  have hnods : ((store.mergeSort tsRowidLe).map Row.rowid).Nodup :=
    ((hperm.map Row.rowid).nodup_iff).mpr hnodup
  unfold pruneVisits
  set sorted := store.mergeSort tsRowidLe with hsorted
  set victims := (sorted.take k).map Row.rowid with hvic
  have h1 := hperm.filter (fun r => ¬ victims.contains r.rowid)
  have h2 : sorted.filter (fun r => ¬ victims.contains r.rowid)
      = sorted.drop k := by
    conv_lhs => rw [← List.take_append_drop k sorted]
    rw [List.filter_append]
    have hnodapp : ((sorted.take k).map Row.rowid ++
        (sorted.drop k).map Row.rowid).Nodup := by
      rw [← List.map_append, List.take_append_drop]
      exact hnods
    have hdisj := (List.nodup_append.mp hnodapp).2.2
    have hta : (sorted.take k).filter
        (fun r => ¬ victims.contains r.rowid) = [] := by
      rw [List.filter_eq_nil_iff]
      intro a ha
      have : a.rowid ∈ victims := by
        rw [hvic]
        exact List.mem_map_of_mem Row.rowid ha
      simp [List.elem_iff, this]
    have hdr : (sorted.drop k).filter
        (fun r => ¬ victims.contains r.rowid) = sorted.drop k := by
      rw [List.filter_eq_self]
      intro a ha
      have hmem : a.rowid ∈ (sorted.drop k).map Row.rowid :=
        List.mem_map_of_mem Row.rowid ha
      have hnv : a.rowid ∉ victims := by
        rw [hvic]
        exact fun hc => hdisj hc hmem
      simp [List.elem_iff, hnv]
    rw [hta, hdr, List.nil_append]
  exact h2 ▸ h1.symm

/-- Helper: the store never holds more than the cap after
`pruneIfNeeded`, given unique rowids. -/
theorem pruneIfNeeded_length_le (maxRecords : Nat) (store : List Row)
    (hnodup : (store.map Row.rowid).Nodup) :
    (pruneIfNeeded maxRecords store).length ≤ maxRecords := by
  unfold pruneIfNeeded
  by_cases h : store.length ≤ maxRecords
  · simpa [h] using h
  · rw [if_neg h, (pruneVisits_perm store _ hnodup).length_eq,
      List.length_drop, List.length_mergeSort]
    omega

/-- C3: after each ingestion (append then prune) the store holds at
most `maxRecords` rows; when the count exceeds the cap, prune deletes
exactly `total - maxRecords` rows, chosen as the oldest by timestamp
ascending with rowid (insertion order) as tiebreak; prune is a no-op
at or under the cap. -/
theorem C3_pruneIfNeeded (maxRecords : Nat) (store : List Row)
    (hnodup : (store.map Row.rowid).Nodup) :
    (store.length ≤ maxRecords → pruneIfNeeded maxRecords store = store) ∧
    (maxRecords < store.length →
      (pruneIfNeeded maxRecords store).length = maxRecords ∧
      (pruneIfNeeded maxRecords store).Perm
        ((store.mergeSort tsRowidLe).drop (store.length - maxRecords)) ∧
      (∀ d ∈ store, d ∉ pruneIfNeeded maxRecords store →
        ∀ s ∈ pruneIfNeeded maxRecords store, tsRowidLe d s = true)) ∧
    (pruneIfNeeded maxRecords store).length ≤ maxRecords ∧
    (∀ mode outcome id ts net ua body nr,
      nr ∉ store.map Row.rowid →
      ((trackHandler mode outcome maxRecords id ts net ua body store nr).2.2).length
        ≤ maxRecords) := by
  have hsorted := List.sorted_mergeSort tsRowidLe_trans tsRowidLe_total store
  refine ⟨?_, ?_, pruneIfNeeded_length_le maxRecords store hnodup, ?_⟩
  · intro h
    simp [pruneIfNeeded, h]
  · intro h
    have hperm := pruneVisits_perm store (store.length - maxRecords) hnodup
    have hpruned : pruneIfNeeded maxRecords store
        = pruneVisits store (store.length - maxRecords) := by
      rw [pruneIfNeeded, if_neg (by omega)]
    refine ⟨?_, ?_, ?_⟩
    · rw [hpruned, hperm.length_eq, List.length_drop, List.length_mergeSort]
      omega
    · rw [hpruned]
      exact hperm
    · intro d hd hdn s hs
      rw [hpruned] at hdn hs
      have hds : d ∈ store.mergeSort tsRowidLe := List.mem_mergeSort.mpr hd
      rw [← List.take_append_drop (store.length - maxRecords)
        (store.mergeSort tsRowidLe)] at hds
      have hdtake : d ∈ (store.mergeSort tsRowidLe).take (store.length - maxRecords) := by
        rcases List.mem_append.mp hds with h1 | h1
        · exact h1
        · exact absurd (hperm.mem_iff.mpr h1) hdn
      have hsdrop : s ∈ (store.mergeSort tsRowidLe).drop (store.length - maxRecords) :=
        hperm.mem_iff.mp hs
      have hp : List.Pairwise (fun a b => tsRowidLe a b = true)
          ((store.mergeSort tsRowidLe).take (store.length - maxRecords) ++
           (store.mergeSort tsRowidLe).drop (store.length - maxRecords)) := by
        rwa [List.take_append_drop]
      exact (List.pairwise_append.mp hp).2.2 d hdtake s hsdrop
  · intro mode outcome id ts net ua body nr hnr
    have key : ∀ p : Payload,
        ((store ++ [insertVisit nr p]).map Row.rowid).Nodup := by
      intro p
      rw [List.map_append]
      simp only [List.map_cons, List.map_nil, insertVisit]
      rw [List.nodup_append]
      refine ⟨hnodup, List.nodup_singleton nr, ?_⟩
      intro a ha hb
      simp only [List.mem_singleton] at hb
      subst hb
      exact hnr ha
    exact pruneIfNeeded_length_le _ _ (key _)

theorem C3_pruneIfNeeded_witness :
    (pruneIfNeeded 2
      [⟨1, "i1", "2024-01-01T00:00:00.000Z", "", none, none, none, none, "[]", none, none⟩,
       ⟨2, "i2", "2024-01-02T00:00:00.000Z", "", none, none, none, none, "[]", none, none⟩,
       ⟨3, "i3", "2024-01-03T00:00:00.000Z", "", none, none, none, none, "[]", none, none⟩]).length = 2 :=
  ((C3_pruneIfNeeded 2
      [⟨1, "i1", "2024-01-01T00:00:00.000Z", "", none, none, none, none, "[]", none, none⟩,
       ⟨2, "i2", "2024-01-02T00:00:00.000Z", "", none, none, none, none, "[]", none, none⟩,
       ⟨3, "i3", "2024-01-03T00:00:00.000Z", "", none, none, none, none, "[]", none, none⟩]
      (by decide)).2.1 (by decide)).1

theorem mk_data (l : List Char) : ((⟨l⟩ : String)).data = l := rfl

theorem mk_eq_lit (l : List Char) (s : String) : ((⟨l⟩ : String) = s) ↔ l = s.data := by
  constructor
  · intro h
    exact congrArg String.data h
  · intro h
    cases s
    cases h
    rfl

/-- Helper: on a non-empty address that is none of the special literals
and does not carry the IPv6-mapped marker, `isPrivateIp` is the prefix
disjunction of line 163–170. -/
theorem isPrivateIp_eq_of_plain (l : List Char)
    (h0 : l ≠ []) (h1 : l ≠ "::1".data) (h2 : l ≠ "127.0.0.1".data)
    (h3 : l.head? ≠ some ':') :
    isPrivateIp ⟨l⟩ =
      (jsStartsWith ⟨l⟩ "10." || jsStartsWith ⟨l⟩ "192.168." || is172Range ⟨l⟩ ||
       jsStartsWith ⟨l⟩ "127." || jsStartsWith ⟨l⟩ "fe80:" || jsStartsWith ⟨l⟩ "fd") := by
  rw [isPrivateIp]
  rw [if_neg (by simp [mk_eq_lit, h0]), if_neg (by simp [mk_eq_lit, h1, h2]),
    dif_neg ?hpre]
  case hpre =>
    cases l with
    | nil => exact absurd rfl h0
    | cons c cs =>
      have hc : c ≠ ':' := by
        intro h
        exact h3 (by simp [h])
      simp [jsStartsWith, List.isPrefixOf, mk_data, Ne.symm hc]

/-- C6: geolocation is skipped whenever lookup is off, the origin is
empty, or the origin is in a private/loopback/link-local range
(10/8, 172.16/12, 192.168/16, 127/8, ::1, fe80:, fd…); and every
enrichment failure yields null geo while the ingestion still succeeds
(201) and the record is appended. -/
theorem C6_geolocate (mode : String) (outcome : FetchOutcome) (ip : String) :
    ((mode = "off" ∨ ip = "" ∨ isPrivateIp ip = true) →
      geolocate mode outcome ip = none) ∧
    (∀ rest : List Char, isPrivateIp ⟨"10.".data ++ rest⟩ = true) ∧
    (∀ rest : List Char, isPrivateIp ⟨"192.168.".data ++ rest⟩ = true) ∧
    (∀ p ∈ (["172.16.", "172.17.", "172.18.", "172.19.", "172.20.", "172.21.",
             "172.22.", "172.23.", "172.24.", "172.25.", "172.26.", "172.27.",
             "172.28.", "172.29.", "172.30.", "172.31."] : List String),
      ∀ rest : List Char, isPrivateIp ⟨p.data ++ rest⟩ = true) ∧
    (∀ rest : List Char, isPrivateIp ⟨"127.".data ++ rest⟩ = true) ∧
    isPrivateIp "::1" = true ∧
    (∀ rest : List Char, isPrivateIp ⟨"fe80:".data ++ rest⟩ = true) ∧
    (∀ rest : List Char, isPrivateIp ⟨"fd".data ++ rest⟩ = true) ∧
    ((outcome = .httpError ∨ outcome = .netError ∨ outcome = .timedOut) →
      geolocate mode outcome ip = none ∧
      (∀ maxRecords id ts net ua body store nr,
        (trackHandler mode outcome maxRecords id ts net ua body store nr).1 = 201 ∧
        (trackHandler mode outcome maxRecords id ts net ua body store nr).2.1.geo
          = none ∧
        (trackHandler mode outcome maxRecords id ts net ua body store nr).2.2 =
          pruneIfNeeded maxRecords (store ++
            [insertVisit nr
              (trackHandler mode outcome maxRecords id ts net ua body store nr).2.1]))) := by
  have hfail : (outcome = .httpError ∨ outcome = .netError ∨ outcome = .timedOut) →
      ∀ ip2, geolocate mode outcome ip2 = none := by
    rintro (h | h | h) ip2 <;> subst h <;>
      (unfold geolocate; split <;> rfl)
  refine ⟨?_, ?_, ?_, ?_, ?_, ?_, ?_, ?_, ?_⟩
  · rintro (h | h | h)
    · simp [geolocate, h]
    · simp [geolocate, h]
    · simp [geolocate, h]
  · intro rest
    rw [isPrivateIp_eq_of_plain _ (by simp) (by simp) (by simp) (by simp)]
    simp [jsStartsWith, mk_data, isPrefixOf_append_self]
  · intro rest
    rw [isPrivateIp_eq_of_plain _ (by simp) (by simp) (by simp) (by simp)]
    simp [jsStartsWith, mk_data, isPrefixOf_append_self]
  · intro p hp rest
    fin_cases hp <;>
      (rw [isPrivateIp_eq_of_plain _ (by simp) (by simp) (by simp) (by simp)]
       simp [is172Range, jsStartsWith, mk_data, isPrefixOf_append_self])
  · intro rest
    by_cases heq : (⟨"127.".data ++ rest⟩ : String) = "127.0.0.1"
    · rw [isPrivateIp]
      rw [if_neg (by simp [mk_eq_lit]), if_pos (by
        simp only [Bool.or_eq_true, decide_eq_true_eq]
        exact Or.inr heq)]
    · rw [isPrivateIp_eq_of_plain _ (by simp) (by simp)
        (by simpa [mk_eq_lit] using heq) (by simp)]
      simp [jsStartsWith, mk_data, isPrefixOf_append_self]
  · rw [isPrivateIp]
    decide
  · intro rest
    rw [isPrivateIp_eq_of_plain _ (by simp) (by simp) (by simp) (by simp)]
    simp [jsStartsWith, mk_data, isPrefixOf_append_self]
  · intro rest
    rw [isPrivateIp_eq_of_plain _ (by simp) (by simp) (by simp) (by simp)]
    simp [jsStartsWith, mk_data, isPrefixOf_append_self]
  · intro houtcome
    refine ⟨hfail houtcome ip, ?_⟩
    intro maxRecords id ts net ua body store nr
    refine ⟨rfl, ?_, rfl⟩
    show (trackPayload id ts (getClientIp net) ua body
      (geolocate mode outcome (getClientIp net))).geo = none
    rw [hfail houtcome (getClientIp net)]
    exact rfl

theorem C6_geolocate_witness :
    geolocate "ipapi" (.success ⟨none, none, none, none, none, none, none, none⟩)
      "192.168.1.5" = none :=
  (C6_geolocate "ipapi"
      (.success ⟨none, none, none, none, none, none, none, none⟩) "192.168.1.5").1
    (Or.inr (Or.inr (by rw [isPrivateIp]; decide)))

section JsonRoundTrip

theorem hexVal_hexDigit : ∀ n, n < 16 → hexVal (hexDigit n) = some n := by decide

/-- Helper: `unescape` undoes the escaping of one character. -/
theorem unescape_escChar (c : Char) (tail : List Char) :
    unescape (escChar c ++ tail) = (unescape tail).map (fun p => (c :: p.1, p.2)) := by
  unfold escChar
  by_cases h1 : c = '"'
  · subst h1
    simp [unescape, unescChar]
  by_cases h2 : c = '\\'
  · subst h2
    simp [h1, unescape, unescChar]
  by_cases h3 : c = '\x08'
  · subst h3
    simp [h1, h2, unescape, unescChar]
  by_cases h4 : c = '\t'
  · subst h4
    simp [h1, h2, h3, unescape, unescChar]
  by_cases h5 : c = '\n'
  · subst h5
    simp [h1, h2, h3, h4, unescape, unescChar]
  by_cases h6 : c = '\x0c'
  · subst h6
    simp [h1, h2, h3, h4, h5, unescape, unescChar]
  by_cases h7 : c = '\r'
  · subst h7
    simp [h1, h2, h3, h4, h5, h6, unescape, unescChar]
  by_cases h8 : c.toNat < 32
  · simp only [if_neg h1, if_neg h2, if_neg h3, if_neg h4, if_neg h5, if_neg h6,
      if_neg h7, if_pos h8]
    have hd : c.toNat / 16 < 16 := by omega
    have hm : c.toNat % 16 < 16 := by omega
    simp only [unescape, List.cons_append, reduceIte, List.cons.injEq]
    simp only [show ('\\' : Char) = '"' ↔ False by simp, iff_false]
    rw [show hexVal '0' = some 0 from by decide, hexVal_hexDigit _ hd,
      hexVal_hexDigit _ hm]
    simp [show c.toNat / 16 * 16 + c.toNat % 16 = c.toNat from by omega,
      Char.ofNat_toNat]
  · simp only [if_neg h1, if_neg h2, if_neg h3, if_neg h4, if_neg h5, if_neg h6,
      if_neg h7, if_neg h8]
    conv_lhs => rw [unescape.eq_def]
    simp [h1, h2]

/-- Helper: `unescape` undoes `escChar`-escaping of a whole string up
to the closing quote. -/
theorem unescape_escList (cs : List Char) (rest : List Char) :
    unescape (cs.flatMap escChar ++ '"' :: rest) = some (cs, rest) := by
  induction cs with
  | nil =>
    conv_lhs => rw [unescape.eq_def]
    simp
  | cons c cs ih =>
    rw [List.flatMap_cons, List.append_assoc, unescape_escChar, ih]
    rfl

end JsonRoundTrip

/-- Helper: `takeWhile` stops exactly at a separator that fails the
predicate. -/
theorem takeWhile_until_sep (p : Char → Bool) (l : List Char) (sep : Char)
    (rest : List Char) (hl : ∀ c ∈ l, p c = true) (hsep : p sep = false) :
    (l ++ sep :: rest).takeWhile p = l := by
  induction l with
  | nil => simp [List.takeWhile, hsep]
  | cons c cs ih =>
    have hc := hl c (by simp)
    simp only [List.cons_append, List.takeWhile_cons, hc, if_true]
    rw [ih (fun d hd => hl d (by simp [hd]))]

/-- Helper: `parseJv` reads back a serialized string literal. -/
theorem parseJv_quoteString (s : String) (rest : List Char) :
    parseJv (quoteString s ++ rest) = some (.jstr s, rest) := by
  have hform : quoteString s ++ rest = '"' :: (escString s ++ '"' :: rest) := by
    simp [quoteString, escString]
  rw [hform]
  show (unescape (escString s ++ '"' :: rest)).map (fun p => (Jv.jstr ⟨p.1⟩, p.2))
    = some (.jstr s, rest)
  rw [escString, unescape_escList]
  rfl

/-- Helper: `parseJv` reads back the `null` literal. -/
theorem parseJv_null (rest : List Char) :
    parseJv ('n' :: 'u' :: 'l' :: 'l' :: rest) = some (.jnull, rest) := by
  simp [parseJv]

/-- Well-formedness of a stored numeric literal: non-empty and made of
number characters only (true of every literal `JSON.stringify` emits
for a number). -/
def numLitWf (lit : String) : Prop :=
  lit.data ≠ [] ∧ ∀ c ∈ lit.data, isNumChar c = true

/-- Helper: `parseJv` reads back a numeric literal up to a
non-numeric separator. -/
theorem parseJv_num (lit : String) (hwf : numLitWf lit) (sep : Char)
    (hsep : isNumChar sep = false) (rest : List Char) :
    parseJv (lit.data ++ sep :: rest) = some (.jnum lit, sep :: rest) := by
  obtain ⟨hne, hnum⟩ := hwf
  rcases hd : lit.data with - | ⟨c, cs⟩
  · exact absurd hd hne
  have hc : isNumChar c = true := by
    apply hnum
    rw [hd]
    simp
  have hq : c ≠ '"' := by
    intro h
    rw [h] at hc
    exact absurd hc (by decide)
  have hn : c ≠ 'n' := by
    intro h
    rw [h] at hc
    exact absurd hc (by decide)
  have hall : ∀ d ∈ c :: cs, isNumChar d = true := by
    intro d hdm
    apply hnum
    rw [hd]
    exact hdm
  simp only [List.cons_append, parseJv, if_neg hq, if_neg hn]
  have htake : ((c :: cs) ++ sep :: rest).takeWhile isNumChar = c :: cs :=
    takeWhile_until_sep isNumChar (c :: cs) sep rest hall hsep
  simp only [List.cons_append] at htake
  rw [htake]
  have hlen : (c :: cs).length = lit.data.length := by rw [hd]
  simp only [if_neg (by simp : ¬ (c :: cs = []))]
  have hdrop : (c :: (cs ++ sep :: rest)).drop (c :: cs).length = sep :: rest := by
    have : (c :: cs) ++ sep :: rest = c :: (cs ++ sep :: rest) := by simp
    rw [← this, List.drop_left]
  rw [hdrop]
  have hlit : (⟨c :: cs⟩ : String) = lit := by
    rw [mk_eq_lit, hd]
  rw [hlit]

/-- Helper: `expectChars` consumes exactly its pattern. -/
theorem expectChars_append (pat rest : List Char) :
    expectChars pat (pat ++ rest) = some rest := by
  simp [expectChars, isPrefixOf_append_self, List.drop_left]

/-- Helper: `parseGeoField` reads back one serialized field chunk. -/
theorem parseGeoField_chunk (key : String) (sep : Char) (v : Jv) (tail : List Char)
    (hsep : isNumChar sep = false)
    (hv : ∀ lit, v = .jnum lit → numLitWf lit) :
    parseGeoField key sep (geoFieldChars key v sep ++ tail) = some (v, tail) := by
  have hform : geoFieldChars key v sep ++ tail
      = ('"' :: key.data ++ ['"', ':']) ++ (stringifyJv v ++ sep :: tail) := by
    simp [geoFieldChars, List.append_assoc]
  rw [hform]
  unfold parseGeoField
  rw [expectChars_append]
  simp only [Option.some_bind]
  cases v with
  | jnull =>
    rw [show stringifyJv Jv.jnull ++ sep :: tail
        = 'n' :: 'u' :: 'l' :: 'l' :: sep :: tail from rfl, parseJv_null]
    simp
  | jstr s =>
    rw [show stringifyJv (Jv.jstr s) ++ sep :: tail
        = quoteString s ++ sep :: tail from rfl, parseJv_quoteString]
    simp
  | jnum lit =>
    rw [show stringifyJv (Jv.jnum lit) ++ sep :: tail
        = lit.data ++ sep :: tail from rfl,
      parseJv_num lit (hv lit rfl) sep hsep tail]
    simp

theorem jvStrField_geoStrJv (x : Option String) : jvStrField (geoStrJv x) = some x := by
  cases x <;> rfl

theorem jvNumField_geoNumJv (x : Option String) : jvNumField (geoNumJv x) = some x := by
  cases x <;> rfl

/-- The well-formedness the round trip needs of a stored geo record:
its numeric literals are non-empty runs of number characters, as
`JSON.stringify` always produces for numbers. -/
def geoRecWf (g : GeoRec) : Prop :=
  (∀ lit, g.latitude = some lit → numLitWf lit) ∧
  (∀ lit, g.longitude = some lit → numLitWf lit)

/-- Helper: `JSON.parse` undoes `JSON.stringify` on the geo object. -/
theorem parseGeo_stringifyGeo (g : GeoRec) (hwf : geoRecWf g) :
    parseGeo (stringifyGeo g) = some g := by
  obtain ⟨hlat, hlong⟩ := hwf
  have hstr : ∀ (x : Option String) lit, geoStrJv x = .jnum lit → numLitWf lit := by
    intro x lit h
    cases x <;> simp [geoStrJv] at h
  have hnumlat : ∀ lit, geoNumJv g.latitude = .jnum lit → numLitWf lit := by
    intro lit h
    cases hx : g.latitude with
    | none => rw [hx] at h; simp [geoNumJv] at h
    | some l =>
      rw [hx] at h
      simp only [geoNumJv, Jv.jnum.injEq] at h
      exact h ▸ hlat l hx
  have hnumlong : ∀ lit, geoNumJv g.longitude = .jnum lit → numLitWf lit := by
    intro lit h
    cases hx : g.longitude with
    | none => rw [hx] at h; simp [geoNumJv] at h
    | some l =>
      rw [hx] at h
      simp only [geoNumJv, Jv.jnum.injEq] at h
      exact h ▸ hlong l hx
  unfold stringifyGeo
  rw [show ∀ l : List Char, parseGeo ⟨'{' :: l⟩ = parseGeoBody l from fun l => rfl]
  unfold parseGeoBody
  rw [show geoFieldChars "longitude" (geoNumJv g.longitude) '}'
      = geoFieldChars "longitude" (geoNumJv g.longitude) '}' ++ [] from
      (List.append_nil _).symm]
  rw [parseGeoField_chunk "country" ',' _ _ (by decide) (hstr g.country)]
  rw [Option.some_bind]
  beta_reduce
  rw [parseGeoField_chunk "country_code" ',' _ _ (by decide) (hstr g.country_code)]
  rw [Option.some_bind]
  beta_reduce
  rw [parseGeoField_chunk "region" ',' _ _ (by decide) (hstr g.region)]
  rw [Option.some_bind]
  beta_reduce
  rw [parseGeoField_chunk "city" ',' _ _ (by decide) (hstr g.city)]
  rw [Option.some_bind]
  beta_reduce
  rw [parseGeoField_chunk "org" ',' _ _ (by decide) (hstr g.org)]
  rw [Option.some_bind]
  beta_reduce
  rw [parseGeoField_chunk "asn" ',' _ _ (by decide) (hstr g.asn)]
  rw [Option.some_bind]
  beta_reduce
  rw [parseGeoField_chunk "latitude" ',' _ _ (by decide) hnumlat]
  rw [Option.some_bind]
  beta_reduce
  rw [parseGeoField_chunk "longitude" '}' _ _ (by decide) hnumlong]
  rw [Option.some_bind]
  beta_reduce
  rw [if_pos (by rfl)]
  rw [jvStrField_geoStrJv g.country, Option.some_bind]
  beta_reduce
  rw [jvStrField_geoStrJv g.country_code, Option.some_bind]
  beta_reduce
  rw [jvStrField_geoStrJv g.region, Option.some_bind]
  beta_reduce
  rw [jvStrField_geoStrJv g.city, Option.some_bind]
  rw [jvStrField_geoStrJv g.org, Option.some_bind]
  rw [jvStrField_geoStrJv g.asn, Option.some_bind]
  rw [jvNumField_geoNumJv g.latitude, Option.some_bind]
  rw [jvNumField_geoNumJv g.longitude, Option.some_bind]

/-- Helper: one-step unfolding of the language-array item parse. -/
theorem parseLangsItems_cons (fuel : Nat) (c : Char) (rest : List Char) :
    parseLangsItems (fuel + 1) (c :: rest) =
      (if c = '"' then
        (unescape rest).bind fun sr =>
          match sr.2 with
          | [] => none
          | d :: r2 =>
            if d = ',' then
              (parseLangsItems fuel r2).map (fun p => ((⟨sr.1⟩ : String) :: p.1, p.2))
            else if d = ']' then some ([⟨sr.1⟩], r2)
            else none
      else none) := rfl

/-- Helper: the item parse reads back a serialized non-empty language
list, given enough fuel. -/
theorem parseLangsItems_round (ls : List String) (hne : ls ≠ []) :
    ∀ (rest : List Char) (fuel : Nat),
      (langsItemsChars ls ++ rest).length ≤ fuel →
      parseLangsItems fuel (langsItemsChars ls ++ rest) = some (ls, rest) := by
  induction ls with
  | nil => exact absurd rfl hne
  | cons l ls ih =>
    intro rest fuel hfuel
    cases ls with
    | nil =>
      have hform : langsItemsChars [l] ++ rest
          = '"' :: (l.data.flatMap escChar ++ '"' :: ']' :: rest) := by
        simp [langsItemsChars, quoteString, escString]
      rw [hform] at hfuel ⊢
      cases fuel with
      | zero => simp at hfuel
      | succ fuel =>
        rw [parseLangsItems_cons, if_pos rfl, unescape_escList, Option.some_bind]
        exact rfl
    | cons l2 ls2 =>
      have hform : langsItemsChars (l :: l2 :: ls2) ++ rest
          = '"' :: (l.data.flatMap escChar ++ '"' :: ',' ::
              (langsItemsChars (l2 :: ls2) ++ rest)) := by
        simp [langsItemsChars, quoteString, escString]
      rw [hform] at hfuel ⊢
      cases fuel with
      | zero => simp at hfuel
      | succ fuel =>
        rw [parseLangsItems_cons, if_pos rfl, unescape_escList, Option.some_bind]
        have hfuel2 : (langsItemsChars (l2 :: ls2) ++ rest).length ≤ fuel := by
          simp only [List.length_cons, List.length_append] at hfuel ⊢
          omega
        show (parseLangsItems fuel (langsItemsChars (l2 :: ls2) ++ rest)).map
            (fun p => ((⟨l.data⟩ : String) :: p.1, p.2)) = some (l :: l2 :: ls2, rest)
        rw [ih (by simp) rest fuel hfuel2]
        exact rfl

/-- Helper: `JSON.parse` undoes `JSON.stringify` on the language
list. -/
theorem parseLangs_stringifyLangs (ls : List String) :
    parseLangs (stringifyLangs ls) = some ls := by
  cases ls with
  | nil => rfl
  | cons l ls =>
    obtain ⟨t, ht⟩ : ∃ t, langsItemsChars (l :: ls) = '"' :: t := by
      cases ls with
      | nil =>
        exact ⟨l.data.flatMap escChar ++ ['"', ']'],
          by simp [langsItemsChars, quoteString, escString]⟩
      | cons l2 ls2 =>
        exact ⟨l.data.flatMap escChar ++ '"' :: ',' :: langsItemsChars (l2 :: ls2),
          by simp [langsItemsChars, quoteString, escString]⟩
    have hopen : ∀ u : List Char, parseLangs ⟨'[' :: '"' :: u⟩
        = (match parseLangsItems ('"' :: u).length ('"' :: u) with
           | some (ls2, r) => if r = [] then some ls2 else none
           | none => none) := fun u => rfl
    rw [show stringifyLangs (l :: ls) = ⟨'[' :: langsItemsChars (l :: ls)⟩ from rfl]
    rw [ht, hopen t, ← ht]
    have hr := parseLangsItems_round (l :: ls) (by simp) []
      (langsItemsChars (l :: ls)).length (by simp)
    rw [List.append_nil] at hr
    rw [hr]
    exact rfl

/-- C8: a record appended to the store and then retrieved via the list
path (before any pruning) is field-for-field identical to the appended
one — the structured `languages` and `geo` fields survive the store's
JSON serialization and deserialization — given that the geo numeric
literals are canonical JSON number tokens (as `JSON.stringify` always
emits). -/
theorem C8_roundTrip (rowid : Nat) (p : Payload)
    (hgeo : ∀ g, p.geo = some g → geoRecWf g) :
    rowToResp (insertVisit rowid p) =
      some ⟨p.id, p.ts, p.ip, p.ua, p.page, p.referrer, p.tz, p.languages,
        p.screen, p.geo⟩ := by
  have hlne : stringifyLangs p.languages ≠ "" := by
    cases hls : p.languages with
    | nil => decide
    | cons l ls =>
      rw [show stringifyLangs (l :: ls) = ⟨'[' :: langsItemsChars (l :: ls)⟩ from rfl]
      simp [mk_eq_empty_iff]
  unfold rowToResp insertVisit
  rw [if_neg hlne, parseLangs_stringifyLangs]
  cases hg : p.geo with
  | none => exact rfl
  | some g =>
    show (parseGeo (stringifyGeo g)).map
        (fun g2 => (⟨p.id, p.ts, p.ip, p.ua, p.page, p.referrer, p.tz,
          p.languages, p.screen, some g2⟩ : RespRecord)) =
      some (⟨p.id, p.ts, p.ip, p.ua, p.page, p.referrer, p.tz, p.languages,
        p.screen, some g⟩ : RespRecord)
    rw [parseGeo_stringifyGeo g (hgeo g hg)]
    exact rfl

theorem C8_roundTrip_witness :
    rowToResp (insertVisit 7
      ⟨"v1", "2024-05-05T12:00:00.000Z", "1.2.3.4", some "Mozilla \"X\"",
       some "/home", none, some "Europe/Paris", ["en-US", "fr"], some "1920x1080",
       some ⟨some "France", some "FR", none, some "Paris", some "Orange",
         some "AS5511", some "48.85", some "2.35"⟩⟩) =
      some ⟨"v1", "2024-05-05T12:00:00.000Z", "1.2.3.4", some "Mozilla \"X\"",
       some "/home", none, some "Europe/Paris", ["en-US", "fr"], some "1920x1080",
       some ⟨some "France", some "FR", none, some "Paris", some "Orange",
         some "AS5511", some "48.85", some "2.35"⟩⟩ :=
  C8_roundTrip 7 _ (by
    rintro g hg
    injection hg with hg2
    subst hg2
    refine ⟨fun lit hl => ?_, fun lit hl => ?_⟩ <;>
      (injection hl with h3
       subst h3
       exact ⟨by decide, by decide⟩))
